import Mathlib

/-!
Verification of the CAN controller contract crate (`src/src/lib.rs`).

The crate is a pure trait/contract library: apart from the two default
methods `is_base_id_frame` and `is_extended_id_frame`, all behaviour is
specified by doc-comment contracts for implementers.  The definitions
below therefore embed the data model and the contracted behaviour of the
operations; each such definition is marked "Modelled from the spec".
-/

namespace Can

/-- Modelled from the spec: the `Id` trait (src/src/lib.rs, trait `Id`)
has no concrete implementation in the crate; the spec fixes a closed
choice of a Base (11-bit) or an Extended (29-bit) identifier. -/
inductive Id where
  | base (v : Nat)
  | extended (v : Nat)
deriving DecidableEq

/-- Embeds the contract of `Id::base_id`: yields the value iff the
identifier is an 11-bit (base) identifier. -/
def Id.base_id : Id → Option Nat
  | .base v => some v
  | .extended _ => none

/-- Embeds the contract of `Id::extended_id`: yields the value iff the
identifier is a 29-bit (extended) identifier. -/
def Id.extended_id : Id → Option Nat
  | .base _ => none
  | .extended v => some v

/-- Class of an identifier: `true` for extended, `false` for base. -/
def Id.isExtended : Id → Bool
  | .base _ => false
  | .extended _ => true

/-- Numeric value carried by an identifier. -/
def Id.val : Id → Nat
  | .base v => v
  | .extended v => v

/-- Well-formedness from the spec's data model: a base value is 11-bit,
an extended value is 29-bit. -/
def Id.wf : Id → Prop
  | .base v => v < 2 ^ 11
  | .extended v => v < 2 ^ 29

/-- Modelled from the spec: the `Filter` trait (src/src/lib.rs, trait
`Filter`) has no concrete implementation in the crate; the spec fixes
three constructions: exact, accept-all, and mask/pattern. -/
inductive Filter where
  | exact (i : Id)
  | acceptAll
  | maskPattern (mask pattern : Nat)
deriving DecidableEq

/-- Bitwise mask/pattern test on the low `n` bits: every position `i < n`
matches when the mask bit is clear (don't care) or the pattern bit equals
the value bit. -/
def maskMatchBits (mask pat v n : Nat) : Bool :=
  (List.range n).all fun i => !mask.testBit i || (pat.testBit i == v.testBit i)

/-- Modelled from the spec: the acceptance predicate of a `Filter`
(match algorithm of spec section 4.2; the crate only documents it on
`Filter::from_mask`, src/src/lib.rs lines 37-48).  A base identifier is
matched on bits 0..10 only; an extended identifier on bits 0..28, with
mask bit 29 additionally requiring pattern bit 29 to be set. -/
def Filter.accepts : Filter → Id → Bool
  | .exact j, i => decide (i = j)
  | .acceptAll, _ => true
  | .maskPattern m p, .base v => maskMatchBits m p v 11
  | .maskPattern m p, .extended v =>
      maskMatchBits m p v 29 && (!m.testBit 29 || p.testBit 29)

/-- Embeds `Filter::from_id`: a filter that only accepts frames with the
provided identifier. -/
def Filter.from_id (i : Id) : Filter := .exact i

/-- Embeds `Filter::accept_all`: a filter accepting any frame. -/
def Filter.accept_all : Filter := .acceptAll

/-- Modelled from the spec: `Filter::from_mask` (src/src/lib.rs lines
37-48) must panic when the mask has a bit set at position 30 or 31;
the panic is modelled as `none`. -/
def Filter.from_mask (mask pat : Nat) : Option Filter :=
  if mask &&& 0xC0000000 = 0 then some (.maskPattern mask pat) else none

/-- The claim's reference acceptance algorithm, written with the high
bits truncated away so that "bits at positions ≥ 11 (base) / ≥ 29
(extended value bits) are ignored even if set" is structural: a base
identifier sees only `mask % 2 ^ 11` and `pattern % 2 ^ 11`; an extended
identifier sees `mask % 2 ^ 29`, `pattern % 2 ^ 29` and, separately,
bit 29 of mask and pattern. -/
def refAccepts (mask pat : Nat) : Id → Bool
  | .base v => maskMatchBits (mask % 2 ^ 11) (pat % 2 ^ 11) v 11
  | .extended v =>
      maskMatchBits (mask % 2 ^ 29) (pat % 2 ^ 29) v 29 &&
        (!mask.testBit 29 || pat.testBit 29)

/-- Modelled from the spec: the payload classification of the `Frame`
trait (src/src/lib.rs, trait `Frame`), which has no concrete
implementation in the crate; a frame is exactly one of a data frame
(with a payload) or a remote frame (without). -/
inductive FrameKind where
  | dataFrame (payload : List Nat)
  | remote
deriving DecidableEq

/-- Modelled from the spec: a concrete `Frame` value — an identifier
plus the data/remote classification. -/
structure Frame where
  id : Id
  kind : FrameKind
deriving DecidableEq

/-- Embeds the contract of `Frame::data`: `some` payload for a data
frame, `none` for a remote frame. -/
def Frame.data (f : Frame) : Option (List Nat) :=
  match f.kind with
  | .dataFrame p => some p
  | .remote => none

/-- Embeds the contract of `Frame::is_remote_frame`. -/
def Frame.is_remote_frame (f : Frame) : Bool :=
  match f.kind with
  | .remote => true
  | .dataFrame _ => false

/-- Embeds the contract of `Frame::is_data_frame`. -/
def Frame.is_data_frame (f : Frame) : Bool :=
  match f.kind with
  | .dataFrame _ => true
  | .remote => false

/-- Embeds the default method body of `Frame::is_base_id_frame`
(src/src/lib.rs lines 64-66): `self.id().base_id().is_some()`. -/
def Frame.is_base_id_frame (f : Frame) : Bool :=
  f.id.base_id.isSome

/-- Embeds the default method body of `Frame::is_extended_id_frame`
(src/src/lib.rs lines 69-71): `self.id().extended_id().is_some()`. -/
def Frame.is_extended_id_frame (f : Frame) : Bool :=
  f.id.extended_id.isSome

/-- Well-formedness from the spec's data model: a data payload carries
0 to 8 bytes. -/
def Frame.wf (f : Frame) : Prop :=
  match f.kind with
  | .dataFrame p => p.length ≤ 8
  | .remote => True

/-- Outcome of a transmit attempt, after the `nb::Result<Option<Frame>>`
return type of `Transmitter::transmit`: accepted into a free slot,
accepted with a displaced lower-priority frame, or would-block (the
hardware-error case carries no behaviour and is not modelled). -/
inductive TxOutcome where
  | accepted
  | acceptedDisplaced (f : Frame)
  | wouldBlock
deriving DecidableEq

/-- Modelled from the spec: the transmit mailbox state — a list of
occupied slots and the hardware capacity. -/
structure TxState where
  slots : List Frame
  capacity : Nat
deriving DecidableEq

/-- The lowest-priority frame (numerically highest identifier) among
`a :: l`; the first such frame on ties. -/
def worstFrame (a : Frame) (l : List Frame) : Frame :=
  l.foldl (fun x y => if x.id.val < y.id.val then y else x) a

/-- Replaces the first occurrence of `w` in the list by `f`. -/
def replaceFirst : List Frame → Frame → Frame → List Frame
  | [], _, _ => []
  | x :: l, w, f => if x = w then f :: l else x :: replaceFirst l w f

/-- Modelled from the spec: `Transmitter::transmit` (src/src/lib.rs
lines 134-140), which the crate only specifies by contract.  A free
slot accepts the frame; with all slots full, the lowest-priority
(numerically highest identifier) resident is evicted and returned when
the incoming frame has a strictly lower identifier, otherwise the call
reports would-block.  The function is total: it never suspends. -/
def transmit (s : TxState) (f : Frame) : TxOutcome × TxState :=
  if s.slots.length < s.capacity then
    (.accepted, ⟨s.slots ++ [f], s.capacity⟩)
  else
    match s.slots with
    | [] => (.wouldBlock, s)
    | a :: l =>
        let w := worstFrame a l
        if f.id.val < w.id.val then
          (.acceptedDisplaced w, ⟨replaceFirst (a :: l) w f, s.capacity⟩)
        else
          (.wouldBlock, s)

/-- Modelled from the spec: an entry of the hardware receive queue —
either a classic CAN frame or a CAN-FD frame (which `Receiver::receive`
must never return). -/
inductive HwEntry where
  | classic (f : Frame)
  | fd (f : Frame)
deriving DecidableEq

/-- Identifier of a hardware queue entry. -/
def HwEntry.entryId : HwEntry → Id
  | .classic f => f.id
  | .fd f => f.id

/-- Modelled from the spec: the receiver state — the hardware receive
queue and the installed acceptance filter. -/
structure RxState where
  queue : List HwEntry
  filt : Filter
deriving DecidableEq

/-- The classic (non-FD) frames of the hardware queue, in order. -/
def classicFrames : List HwEntry → List Frame
  | [] => []
  | .classic f :: l => f :: classicFrames l
  | .fd _ :: l => classicFrames l

/-- The highest-priority frame (numerically lowest identifier) among
`a :: l`; the first such frame on ties. -/
def bestFrame (a : Frame) (l : List Frame) : Frame :=
  l.foldl (fun x y => if y.id.val < x.id.val then y else x) a

/-- Modelled from the spec: a completed `Receiver::receive` call
(src/src/lib.rs lines 143-152), which the crate only specifies by
contract.  It yields the classic frame with the numerically lowest
identifier among those queued, never a CAN-FD entry; `none` models the
suspension when no classic frame is available. -/
def receive (s : RxState) : Option (Frame × RxState) :=
  match classicFrames s.queue with
  | [] => none
  | a :: l =>
      let b := bestFrame a l
      some (b, ⟨s.queue.erase (HwEntry.classic b), s.filt⟩)

/-- Modelled from the spec: `Receiver::set_filter` (src/src/lib.rs lines
154-160) installs the filter for all receive buffers without purging
already-resident frames. -/
def set_filter (s : RxState) (φ : Filter) : RxState :=
  ⟨s.queue, φ⟩

/-- Modelled from the spec: `Receiver::clear_filter` accepts all
frames. -/
def clear_filter (s : RxState) : RxState :=
  set_filter s .acceptAll

/-- Modelled from the spec: hardware acceptance of a newly arriving
entry — it is enqueued exactly when the installed filter accepts its
identifier. -/
def hwDeliver (s : RxState) (e : HwEntry) : RxState :=
  if s.filt.accepts e.entryId then ⟨s.queue ++ [e], s.filt⟩ else s

lemma maskMatchBits_mod (m p v n : Nat) :
    maskMatchBits (m % 2 ^ n) (p % 2 ^ n) v n = maskMatchBits m p v n := by
  unfold maskMatchBits
  have key : ∀ l : List Nat, (∀ i ∈ l, i < n) →
      (l.all fun i =>
        !(m % 2 ^ n).testBit i || ((p % 2 ^ n).testBit i == v.testBit i)) =
      (l.all fun i => !m.testBit i || (p.testBit i == v.testBit i)) := by
    intro l hl
    induction l with
    | nil => rfl
    | cons a t ih =>
        simp only [List.all_cons]
        rw [ih fun i hi => hl i (List.mem_cons_of_mem _ hi)]
        have ha : a < n := hl a (List.mem_cons_self _ _)
        simp [Nat.testBit_mod_two_pow, ha]
  exact key _ fun i hi => List.mem_range.mp hi

end Can

lemma Can.from_mask_some_eq (m p : Nat) (f : Can.Filter)
    (h : Can.Filter.from_mask m p = some f) :
    f = Can.Filter.maskPattern m p := by
  unfold Can.Filter.from_mask at h
  split at h
  · exact (Option.some.injEq ..▸ h).symm
  · exact absurd h (by simp)

/-- C5: for every identifier exactly one of `base_id`/`extended_id`
yields a value: `base_id` yields the 11-bit value iff the identifier is
base, `extended_id` yields the 29-bit value iff it is extended, and no
identifier is both. -/
theorem Can.id_exactly_one (i : Can.Id) :
    (i.base_id.isSome = true ∨ i.extended_id.isSome = true) ∧
    ¬(i.base_id.isSome = true ∧ i.extended_id.isSome = true) ∧
    (∀ v, i.base_id = some v ↔ i = Can.Id.base v) ∧
    (∀ v, i.extended_id = some v ↔ i = Can.Id.extended v) := by
  cases i <;> simp [Can.Id.base_id, Can.Id.extended_id]

/-- Witness for C5 at the concrete identifiers base 5 and extended 5. -/
theorem Can.id_exactly_one_witness :
    ((Can.Id.base 5).base_id.isSome = true ∨
      (Can.Id.base 5).extended_id.isSome = true) ∧
    ¬((Can.Id.base 5).base_id.isSome = true ∧
      (Can.Id.base 5).extended_id.isSome = true) ∧
    (∀ v, (Can.Id.base 5).base_id = some v ↔ Can.Id.base 5 = Can.Id.base v) ∧
    (∀ v, (Can.Id.base 5).extended_id = some v ↔
      Can.Id.base 5 = Can.Id.extended v) :=
  Can.id_exactly_one (Can.Id.base 5)

/-- C3: `from_mask` fails (modelled as `none`) exactly when the mask has
a bit at position 30 or 31, i.e. iff `mask &&& 0xC0000000 ≠ 0`; on
success the constructed filter keeps the mask and pattern untruncated. -/
theorem Can.from_mask_validation (m p : Nat) :
    (Can.Filter.from_mask m p = none ↔ m &&& 0xC0000000 ≠ 0) ∧
    (∀ f, Can.Filter.from_mask m p = some f →
      f = Can.Filter.maskPattern m p) := by
  constructor
  · unfold Can.Filter.from_mask
    split <;> simp_all
  · exact fun f hf => Can.from_mask_some_eq m p f hf

/-- Witness for C3: the mask `0xC0000000` is rejected, the mask `0x7FF`
is accepted untruncated. -/
theorem Can.from_mask_validation_witness :
    ((Can.Filter.from_mask 0xC0000000 5 = none ↔
        0xC0000000 &&& 0xC0000000 ≠ 0) ∧
      (∀ f, Can.Filter.from_mask 0xC0000000 5 = some f →
        f = Can.Filter.maskPattern 0xC0000000 5)) ∧
    ((Can.Filter.from_mask 0x7FF 5 = none ↔ 0x7FF &&& 0xC0000000 ≠ 0) ∧
      (∀ f, Can.Filter.from_mask 0x7FF 5 = some f →
        f = Can.Filter.maskPattern 0x7FF 5)) :=
  ⟨Can.from_mask_validation 0xC0000000 5, Can.from_mask_validation 0x7FF 5⟩

/-- C2: the acceptance predicate of a successfully constructed
mask/pattern filter equals the reference algorithm: a base identifier is
matched only on mask/pattern bits 0..10 (all higher bits, bit 29
included, are truncated away in the reference), and an extended
identifier on bits 0..28 together with the bit-29 rule. -/
theorem Can.from_mask_matches_reference (m p : Nat) (f : Can.Filter)
    (h : Can.Filter.from_mask m p = some f) (i : Can.Id) :
    f.accepts i = Can.refAccepts m p i := by
  have hf : f = Can.Filter.maskPattern m p :=
    Can.from_mask_some_eq m p f h
  subst hf
  cases i with
  | base v =>
      simp only [Can.Filter.accepts, Can.refAccepts, Can.maskMatchBits_mod]
  | extended v =>
      simp only [Can.Filter.accepts, Can.refAccepts, Can.maskMatchBits_mod]

/-- Witness for C2: a concrete extended-only filter (mask bit 29 set)
evaluated at an extended and at a base identifier. -/
theorem Can.from_mask_matches_reference_witness :
    (Can.Filter.maskPattern 0x20000007 0x20000003).accepts
        (Can.Id.extended 3) =
      Can.refAccepts 0x20000007 0x20000003 (Can.Id.extended 3) ∧
    (Can.Filter.maskPattern 0x20000007 0x20000003).accepts
        (Can.Id.base 3) =
      Can.refAccepts 0x20000007 0x20000003 (Can.Id.base 3) :=
  ⟨Can.from_mask_matches_reference 0x20000007 0x20000003 _ rfl
      (Can.Id.extended 3),
    Can.from_mask_matches_reference 0x20000007 0x20000003 _ rfl
      (Can.Id.base 3)⟩

/-- C6: the exact filter built by `from_id` accepts the identifier
itself, rejects every other identifier (in particular every same-class
identifier of different value), and never accepts an identifier of the
other class, even one with numerically equal low bits. -/
theorem Can.from_id_exact (i : Can.Id) :
    (Can.Filter.from_id i).accepts i = true ∧
    (∀ j : Can.Id, j ≠ i → (Can.Filter.from_id i).accepts j = false) ∧
    (∀ v w : Nat,
      (Can.Filter.from_id (Can.Id.base v)).accepts (Can.Id.extended w)
        = false) ∧
    (∀ v w : Nat,
      (Can.Filter.from_id (Can.Id.extended v)).accepts (Can.Id.base w)
        = false) := by
  refine ⟨by simp [Can.Filter.from_id, Can.Filter.accepts], ?_, ?_, ?_⟩
  · intro j hj
    simp [Can.Filter.from_id, Can.Filter.accepts, hj]
  · intro v w
    simp [Can.Filter.from_id, Can.Filter.accepts]
  · intro v w
    simp [Can.Filter.from_id, Can.Filter.accepts]

/-- Witness for C6 at the base identifier 5: it matches itself, does not
match base 6, and does not match extended 5 (equal low bits). -/
theorem Can.from_id_exact_witness :
    (Can.Filter.from_id (Can.Id.base 5)).accepts (Can.Id.base 5) = true ∧
    (Can.Id.base 6 ≠ Can.Id.base 5 →
      (Can.Filter.from_id (Can.Id.base 5)).accepts (Can.Id.base 6)
        = false) ∧
    (Can.Filter.from_id (Can.Id.base 5)).accepts (Can.Id.extended 5)
      = false :=
  ⟨(Can.from_id_exact (Can.Id.base 5)).1,
    fun h => (Can.from_id_exact (Can.Id.base 5)).2.1 (Can.Id.base 6) h,
    (Can.from_id_exact (Can.Id.base 5)).2.2.1 5 5⟩

lemma Can.worstFrame_mem (a : Can.Frame) (l : List Can.Frame) :
    Can.worstFrame a l ∈ a :: l := by
  induction l generalizing a with
  | nil => simp [Can.worstFrame]
  | cons b t ih =>
      simp only [Can.worstFrame, List.foldl_cons]
      split
      · have h := ih b
        simp only [Can.worstFrame] at h
        exact List.mem_cons_of_mem a h
      · have h := ih a
        simp only [Can.worstFrame] at h
        rcases List.mem_cons.mp h with h1 | h1
        · simp [h1]
        · exact List.mem_cons_of_mem a (List.mem_cons_of_mem b h1)

lemma Can.worstFrame_le (a : Can.Frame) (l : List Can.Frame) :
    ∀ x ∈ a :: l, x.id.val ≤ (Can.worstFrame a l).id.val := by
  induction l generalizing a with
  | nil =>
      intro x hx
      have hxa : x = a := by simpa using hx
      simp [hxa, Can.worstFrame]
  | cons b t ih =>
      intro x hx
      have hw : Can.worstFrame a (b :: t) =
          Can.worstFrame (if a.id.val < b.id.val then b else a) t := rfl
      rw [hw]
      have hca : a.id.val ≤ (if a.id.val < b.id.val then b else a).id.val := by
        split <;> omega
      have hcb : b.id.val ≤ (if a.id.val < b.id.val then b else a).id.val := by
        split <;> omega
      have hcw := ih (if a.id.val < b.id.val then b else a) _
        (List.mem_cons_self _ _)
      rcases List.mem_cons.mp hx with h | h
      · subst h
        exact le_trans hca hcw
      rcases List.mem_cons.mp h with h1 | h1
      · subst h1
        exact le_trans hcb hcw
      · exact ih _ _ (List.mem_cons_of_mem _ h1)

lemma Can.bestFrame_mem (a : Can.Frame) (l : List Can.Frame) :
    Can.bestFrame a l ∈ a :: l := by
  induction l generalizing a with
  | nil => simp [Can.bestFrame]
  | cons b t ih =>
      simp only [Can.bestFrame, List.foldl_cons]
      split
      · have h := ih b
        simp only [Can.bestFrame] at h
        exact List.mem_cons_of_mem a h
      · have h := ih a
        simp only [Can.bestFrame] at h
        rcases List.mem_cons.mp h with h1 | h1
        · simp [h1]
        · exact List.mem_cons_of_mem a (List.mem_cons_of_mem b h1)

lemma Can.bestFrame_le (a : Can.Frame) (l : List Can.Frame) :
    ∀ x ∈ a :: l, (Can.bestFrame a l).id.val ≤ x.id.val := by
  induction l generalizing a with
  | nil =>
      intro x hx
      have hxa : x = a := by simpa using hx
      simp [hxa, Can.bestFrame]
  | cons b t ih =>
      intro x hx
      have hw : Can.bestFrame a (b :: t) =
          Can.bestFrame (if b.id.val < a.id.val then b else a) t := rfl
      rw [hw]
      have hca : (if b.id.val < a.id.val then b else a).id.val ≤ a.id.val := by
        split <;> omega
      have hcb : (if b.id.val < a.id.val then b else a).id.val ≤ b.id.val := by
        split <;> omega
      have hcw := ih (if b.id.val < a.id.val then b else a) _
        (List.mem_cons_self _ _)
      rcases List.mem_cons.mp hx with h | h
      · subst h
        exact le_trans hcw hca
      rcases List.mem_cons.mp h with h1 | h1
      · subst h1
        exact le_trans hcw hcb
      · exact ih _ _ (List.mem_cons_of_mem _ h1)

lemma Can.mem_classicFrames (q : List Can.HwEntry) (f : Can.Frame) :
    f ∈ Can.classicFrames q ↔ Can.HwEntry.classic f ∈ q := by
  induction q with
  | nil => simp [Can.classicFrames]
  | cons e t ih =>
      cases e with
      | classic g => simp [Can.classicFrames, ih]
      | fd g => simp [Can.classicFrames, ih]

lemma Can.classicFrames_eq_nil (q : List Can.HwEntry)
    (h : ∀ e ∈ q, ∃ g, e = Can.HwEntry.fd g) :
    Can.classicFrames q = [] := by
  induction q with
  | nil => rfl
  | cons e t ih =>
      obtain ⟨g, rfl⟩ := h e (List.mem_cons_self _ _)
      simpa [Can.classicFrames] using
        ih fun x hx => h x (List.mem_cons_of_mem _ hx)

/-- C7: a frame's payload query yields a present payload iff the frame
is a data frame, the payload of a well-formed frame has length at most
8, a remote frame always yields an absent payload, and a data frame
with an empty payload yields a present payload of length 0. -/
theorem Can.frame_data_iff (f : Can.Frame) (h : f.wf) :
    (f.data.isSome = f.is_data_frame) ∧
    (∀ p, f.data = some p → p.length ≤ 8) ∧
    (f.is_remote_frame = true → f.data = none) ∧
    (f.kind = Can.FrameKind.dataFrame [] → f.data = some []) := by
  obtain ⟨i, k⟩ := f
  cases k with
  | dataFrame p =>
      simp only [Can.Frame.wf] at h
      refine ⟨rfl, ?_, ?_, ?_⟩
      · intro q hq
        simp only [Can.Frame.data, Option.some.injEq] at hq
        exact hq ▸ h
      · intro hr
        simp [Can.Frame.is_remote_frame] at hr
      · intro hk
        simp only [Can.FrameKind.dataFrame.injEq] at hk
        simp [Can.Frame.data, hk]
  | remote =>
      refine ⟨rfl, ?_, fun _ => rfl, ?_⟩
      · intro q hq
        simp [Can.Frame.data] at hq
      · intro hk
        simp at hk

/-- Witness for C7: a data frame with a 2-byte payload and a remote
frame, both well-formed. -/
theorem Can.frame_data_iff_witness :
    (((Can.Frame.mk (Can.Id.base 1) (Can.FrameKind.dataFrame [1, 2])).data.isSome
        = (Can.Frame.mk (Can.Id.base 1)
            (Can.FrameKind.dataFrame [1, 2])).is_data_frame) ∧
      (∀ p, (Can.Frame.mk (Can.Id.base 1)
          (Can.FrameKind.dataFrame [1, 2])).data = some p → p.length ≤ 8) ∧
      ((Can.Frame.mk (Can.Id.base 1)
          (Can.FrameKind.dataFrame [1, 2])).is_remote_frame = true →
        (Can.Frame.mk (Can.Id.base 1)
          (Can.FrameKind.dataFrame [1, 2])).data = none) ∧
      ((Can.Frame.mk (Can.Id.base 1) (Can.FrameKind.dataFrame [1, 2])).kind
          = Can.FrameKind.dataFrame [] →
        (Can.Frame.mk (Can.Id.base 1)
          (Can.FrameKind.dataFrame [1, 2])).data = some [])) ∧
    (((Can.Frame.mk (Can.Id.base 1) Can.FrameKind.remote).data.isSome
        = (Can.Frame.mk (Can.Id.base 1) Can.FrameKind.remote).is_data_frame) ∧
      (∀ p, (Can.Frame.mk (Can.Id.base 1) Can.FrameKind.remote).data = some p →
        p.length ≤ 8) ∧
      ((Can.Frame.mk (Can.Id.base 1) Can.FrameKind.remote).is_remote_frame
          = true →
        (Can.Frame.mk (Can.Id.base 1) Can.FrameKind.remote).data = none) ∧
      ((Can.Frame.mk (Can.Id.base 1) Can.FrameKind.remote).kind
          = Can.FrameKind.dataFrame [] →
        (Can.Frame.mk (Can.Id.base 1) Can.FrameKind.remote).data = some [])) :=
  ⟨Can.frame_data_iff (Can.Frame.mk (Can.Id.base 1)
      (Can.FrameKind.dataFrame [1, 2])) (by simp [Can.Frame.wf]),
    Can.frame_data_iff (Can.Frame.mk (Can.Id.base 1) Can.FrameKind.remote)
      (by simp [Can.Frame.wf])⟩

/-- C9: the default predicates `is_base_id_frame` and
`is_extended_id_frame` equal `id().base_id().is_some()` and
`id().extended_id().is_some()` respectively, and under the identifier
exactly-one invariant they are mutually exclusive with exactly one of
them true. -/
theorem Can.frame_id_class_predicates (f : Can.Frame) :
    (f.is_base_id_frame = f.id.base_id.isSome) ∧
    (f.is_extended_id_frame = f.id.extended_id.isSome) ∧
    (f.is_base_id_frame = !f.is_extended_id_frame) := by
  refine ⟨rfl, rfl, ?_⟩
  obtain ⟨i, k⟩ := f
  cases i <;> rfl

/-- C1: with all transmit slots occupied (and all residents of the same
identifier class as the incoming frame), `transmit` returns success with
the evicted lowest-priority resident — a resident frame whose identifier
is numerically maximal — when the incoming frame's identifier is
strictly below some resident's; it returns would-block when every
resident's identifier is at most the incoming one (equal or higher
priority).  `transmit` is a total function, so it never suspends. -/
theorem Can.transmit_eviction (s : Can.TxState) (f : Can.Frame)
    (hfull : s.slots.length = s.capacity) (hne : s.slots ≠ [])
    (hclass : ∀ g ∈ s.slots, g.id.isExtended = f.id.isExtended) :
    ((∃ g ∈ s.slots, f.id.val < g.id.val) →
      ∃ w ∈ s.slots,
        (Can.transmit s f).1 = Can.TxOutcome.acceptedDisplaced w ∧
          ∀ g ∈ s.slots, g.id.val ≤ w.id.val) ∧
    ((∀ g ∈ s.slots, g.id.val ≤ f.id.val) →
      (Can.transmit s f).1 = Can.TxOutcome.wouldBlock) := by
  obtain ⟨slots, cap⟩ := s
  cases slots with
  | nil => exact absurd rfl hne
  | cons a l =>
      simp only at hfull
      have hnlt : ¬ (a :: l).length < cap := by omega
      have hnlt2 : ¬ l.length + 1 < cap := by simpa using hnlt
      constructor
      · rintro ⟨g, hg, hlt⟩
        have hle := Can.worstFrame_le a l g hg
        have hfw : f.id.val < (Can.worstFrame a l).id.val :=
          lt_of_lt_of_le hlt hle
        refine ⟨Can.worstFrame a l, Can.worstFrame_mem a l, ?_,
          Can.worstFrame_le a l⟩
        simp [Can.transmit, hnlt, hnlt2, hfw]
      · intro hall
        have hwle := hall _ (Can.worstFrame_mem a l)
        have hnf : ¬ f.id.val < (Can.worstFrame a l).id.val := by omega
        simp [Can.transmit, hnlt, hnlt2, hnf]

/-- Witness for C1: the spec's concrete scenario — residents with
identifiers 5, 9 and 20, capacity 3, incoming identifier 2; the call
displaces the resident with identifier 20. -/
theorem Can.transmit_eviction_witness :
    (((∃ g ∈ [Can.Frame.mk (Can.Id.base 5) Can.FrameKind.remote,
          Can.Frame.mk (Can.Id.base 9) Can.FrameKind.remote,
          Can.Frame.mk (Can.Id.base 20) Can.FrameKind.remote],
        (Can.Frame.mk (Can.Id.base 2) Can.FrameKind.remote).id.val <
          g.id.val) →
      ∃ w ∈ [Can.Frame.mk (Can.Id.base 5) Can.FrameKind.remote,
          Can.Frame.mk (Can.Id.base 9) Can.FrameKind.remote,
          Can.Frame.mk (Can.Id.base 20) Can.FrameKind.remote],
        (Can.transmit
            (Can.TxState.mk
              [Can.Frame.mk (Can.Id.base 5) Can.FrameKind.remote,
                Can.Frame.mk (Can.Id.base 9) Can.FrameKind.remote,
                Can.Frame.mk (Can.Id.base 20) Can.FrameKind.remote] 3)
            (Can.Frame.mk (Can.Id.base 2) Can.FrameKind.remote)).1 =
          Can.TxOutcome.acceptedDisplaced w ∧
          ∀ g ∈ [Can.Frame.mk (Can.Id.base 5) Can.FrameKind.remote,
              Can.Frame.mk (Can.Id.base 9) Can.FrameKind.remote,
              Can.Frame.mk (Can.Id.base 20) Can.FrameKind.remote],
            g.id.val ≤ w.id.val) ∧
    ((∀ g ∈ [Can.Frame.mk (Can.Id.base 5) Can.FrameKind.remote,
          Can.Frame.mk (Can.Id.base 9) Can.FrameKind.remote,
          Can.Frame.mk (Can.Id.base 20) Can.FrameKind.remote],
        g.id.val ≤
          (Can.Frame.mk (Can.Id.base 2) Can.FrameKind.remote).id.val) →
      (Can.transmit
          (Can.TxState.mk
            [Can.Frame.mk (Can.Id.base 5) Can.FrameKind.remote,
              Can.Frame.mk (Can.Id.base 9) Can.FrameKind.remote,
              Can.Frame.mk (Can.Id.base 20) Can.FrameKind.remote] 3)
          (Can.Frame.mk (Can.Id.base 2) Can.FrameKind.remote)).1 =
        Can.TxOutcome.wouldBlock)) ∧
    (Can.transmit
        (Can.TxState.mk
          [Can.Frame.mk (Can.Id.base 5) Can.FrameKind.remote,
            Can.Frame.mk (Can.Id.base 9) Can.FrameKind.remote,
            Can.Frame.mk (Can.Id.base 20) Can.FrameKind.remote] 3)
        (Can.Frame.mk (Can.Id.base 2) Can.FrameKind.remote)).1 =
      Can.TxOutcome.acceptedDisplaced
        (Can.Frame.mk (Can.Id.base 20) Can.FrameKind.remote) :=
  ⟨Can.transmit_eviction
      (Can.TxState.mk
        [Can.Frame.mk (Can.Id.base 5) Can.FrameKind.remote,
          Can.Frame.mk (Can.Id.base 9) Can.FrameKind.remote,
          Can.Frame.mk (Can.Id.base 20) Can.FrameKind.remote] 3)
      (Can.Frame.mk (Can.Id.base 2) Can.FrameKind.remote)
      rfl (by simp) (by decide),
    by decide⟩

/-- C10: `transmit` never hands the caller's own frame back as the
displaced frame (the displaced frame has a strictly larger identifier,
so it is a distinct frame value), and on would-block the transmitter
state is unchanged, so the caller can retry with the very same frame;
as a pure function, `transmit` cannot consume or mutate its argument. -/
theorem Can.transmit_no_consume (s : Can.TxState) (f : Can.Frame) :
    (∀ w, (Can.transmit s f).1 = Can.TxOutcome.acceptedDisplaced w →
      w ≠ f) ∧
    ((Can.transmit s f).1 = Can.TxOutcome.wouldBlock →
      (Can.transmit s f).2 = s) := by
  obtain ⟨slots, cap⟩ := s
  unfold Can.transmit
  split
  · exact ⟨fun w hw => absurd hw (by simp), fun hw => absurd hw (by simp)⟩
  · split
    · exact ⟨fun w hw => absurd hw (by simp), fun _ => rfl⟩
    · next a l =>
        simp only
        split
        · next hlt =>
            refine ⟨?_, fun hw => absurd hw (by simp)⟩
            intro w hw
            simp only [Prod.fst, Can.TxOutcome.acceptedDisplaced.injEq] at hw
            subst hw
            intro hwf
            rw [hwf] at hlt
            exact lt_irrefl _ hlt
        · exact ⟨fun w hw => absurd hw (by simp), fun _ => rfl⟩

/-- Witness for C10: with one slot holding identifier 5 and incoming
identifier 2, the displaced frame (identifier 5) is distinct from the
input; with one slot holding identifier 1 and incoming identifier 9,
the call would-blocks and leaves the state unchanged. -/
theorem Can.transmit_no_consume_witness :
    Can.Frame.mk (Can.Id.base 5) Can.FrameKind.remote ≠
      Can.Frame.mk (Can.Id.base 2) Can.FrameKind.remote ∧
    (Can.transmit
        (Can.TxState.mk
          [Can.Frame.mk (Can.Id.base 1) Can.FrameKind.remote] 1)
        (Can.Frame.mk (Can.Id.base 9) Can.FrameKind.remote)).2 =
      Can.TxState.mk
        [Can.Frame.mk (Can.Id.base 1) Can.FrameKind.remote] 1 :=
  ⟨(Can.transmit_no_consume
      (Can.TxState.mk
        [Can.Frame.mk (Can.Id.base 5) Can.FrameKind.remote] 1)
      (Can.Frame.mk (Can.Id.base 2) Can.FrameKind.remote)).1
      (Can.Frame.mk (Can.Id.base 5) Can.FrameKind.remote) (by decide),
    (Can.transmit_no_consume
      (Can.TxState.mk
        [Can.Frame.mk (Can.Id.base 1) Can.FrameKind.remote] 1)
      (Can.Frame.mk (Can.Id.base 9) Can.FrameKind.remote)).2 (by decide)⟩

/-- C4: every completed `receive` call yields a frame that is queued as
a classic (non-FD) entry and whose identifier is numerically lowest
among all classic frames currently queued; when the queue holds only
CAN-FD entries, `receive` yields nothing, so a CAN-FD frame is never
returned. -/
theorem Can.receive_lowest (s : Can.RxState) :
    (∀ f s', Can.receive s = some (f, s') →
      Can.HwEntry.classic f ∈ s.queue ∧
        ∀ g, Can.HwEntry.classic g ∈ s.queue → f.id.val ≤ g.id.val) ∧
    ((∀ e ∈ s.queue, ∃ g, e = Can.HwEntry.fd g) →
      Can.receive s = none) := by
  constructor
  · intro f s' h
    unfold Can.receive at h
    split at h
    · exact absurd h (by simp)
    · next a l heq =>
        simp only [Option.some.injEq, Prod.mk.injEq] at h
        obtain ⟨hf, -⟩ := h
        subst hf
        constructor
        · have hm := Can.bestFrame_mem a l
          rw [← heq] at hm
          exact (Can.mem_classicFrames s.queue _).mp hm
        · intro g hg
          have hmg : g ∈ Can.classicFrames s.queue :=
            (Can.mem_classicFrames s.queue g).mpr hg
          rw [heq] at hmg
          exact Can.bestFrame_le a l g hmg
  · intro h
    unfold Can.receive
    rw [Can.classicFrames_eq_nil s.queue h]

/-- Witness for C4: with queue entries classic-9, fd-1, classic-5 the
call yields the classic frame with identifier 5; with a queue holding
only an FD entry, the call yields nothing. -/
theorem Can.receive_lowest_witness :
    (Can.HwEntry.classic (Can.Frame.mk (Can.Id.base 5) Can.FrameKind.remote) ∈
        [Can.HwEntry.classic
            (Can.Frame.mk (Can.Id.base 9) Can.FrameKind.remote),
          Can.HwEntry.fd (Can.Frame.mk (Can.Id.base 1) Can.FrameKind.remote),
          Can.HwEntry.classic
            (Can.Frame.mk (Can.Id.base 5) Can.FrameKind.remote)] ∧
      ∀ g, Can.HwEntry.classic g ∈
          [Can.HwEntry.classic
              (Can.Frame.mk (Can.Id.base 9) Can.FrameKind.remote),
            Can.HwEntry.fd
              (Can.Frame.mk (Can.Id.base 1) Can.FrameKind.remote),
            Can.HwEntry.classic
              (Can.Frame.mk (Can.Id.base 5) Can.FrameKind.remote)] →
        (Can.Frame.mk (Can.Id.base 5) Can.FrameKind.remote).id.val ≤
          g.id.val) ∧
    Can.receive
        (Can.RxState.mk
          [Can.HwEntry.fd (Can.Frame.mk (Can.Id.base 1) Can.FrameKind.remote)]
          Can.Filter.acceptAll) = none :=
  ⟨(Can.receive_lowest
      (Can.RxState.mk
        [Can.HwEntry.classic
            (Can.Frame.mk (Can.Id.base 9) Can.FrameKind.remote),
          Can.HwEntry.fd (Can.Frame.mk (Can.Id.base 1) Can.FrameKind.remote),
          Can.HwEntry.classic
            (Can.Frame.mk (Can.Id.base 5) Can.FrameKind.remote)]
        Can.Filter.acceptAll)).1
      (Can.Frame.mk (Can.Id.base 5) Can.FrameKind.remote)
      (Can.RxState.mk
        [Can.HwEntry.classic
            (Can.Frame.mk (Can.Id.base 9) Can.FrameKind.remote),
          Can.HwEntry.fd (Can.Frame.mk (Can.Id.base 1) Can.FrameKind.remote)]
        Can.Filter.acceptAll)
      (by decide),
    (Can.receive_lowest
      (Can.RxState.mk
        [Can.HwEntry.fd (Can.Frame.mk (Can.Id.base 1) Can.FrameKind.remote)]
        Can.Filter.acceptAll)).2
      fun e he =>
        ⟨Can.Frame.mk (Can.Id.base 1) Can.FrameKind.remote,
          List.mem_singleton.mp he⟩⟩

/-- C8: `set_filter` keeps the receive queue untouched (resident frames
are not purged and a frame receivable before the call is still
receivable, with the same highest-priority frame yielded), while after
the call the hardware enqueues a newly arriving entry exactly when the
new filter accepts its identifier. -/
theorem Can.set_filter_non_retroactive (s : Can.RxState) (φ : Can.Filter) :
    ((Can.set_filter s φ).queue = s.queue) ∧
    (∀ e, (Can.hwDeliver (Can.set_filter s φ) e).queue =
      if φ.accepts e.entryId then s.queue ++ [e] else s.queue) ∧
    (∀ f s', Can.receive s = some (f, s') →
      ∃ s'', Can.receive (Can.set_filter s φ) = some (f, s'')) := by
  obtain ⟨q, ψ⟩ := s
  refine ⟨rfl, ?_, ?_⟩
  · intro e
    unfold Can.hwDeliver Can.set_filter
    split <;> rfl
  · intro f s' h
    unfold Can.receive at h ⊢
    unfold Can.set_filter
    simp only at h ⊢
    cases hq : Can.classicFrames q with
    | nil => rw [hq] at h; exact absurd h (by simp)
    | cons a l =>
        rw [hq] at h
        simp only [Option.some.injEq, Prod.mk.injEq] at h
        obtain ⟨hf, -⟩ := h
        exact ⟨Can.RxState.mk
            (q.erase (Can.HwEntry.classic (Can.bestFrame a l))) φ,
          by simp [hf]⟩

/-- Witness for C8: a queue holding the classic frame with identifier 9
(not matched by the new exact filter on identifier 5) survives the
filter change and is still yielded by `receive`; a newly arriving
classic frame with identifier 9 is dropped, one with identifier 5 is
enqueued. -/
theorem Can.set_filter_non_retroactive_witness :
    ((Can.set_filter
        (Can.RxState.mk
          [Can.HwEntry.classic
              (Can.Frame.mk (Can.Id.base 9) Can.FrameKind.remote)]
          Can.Filter.acceptAll)
        (Can.Filter.from_id (Can.Id.base 5))).queue =
      [Can.HwEntry.classic
          (Can.Frame.mk (Can.Id.base 9) Can.FrameKind.remote)]) ∧
    ((Can.hwDeliver
        (Can.set_filter
          (Can.RxState.mk
            [Can.HwEntry.classic
                (Can.Frame.mk (Can.Id.base 9) Can.FrameKind.remote)]
            Can.Filter.acceptAll)
          (Can.Filter.from_id (Can.Id.base 5)))
        (Can.HwEntry.classic
          (Can.Frame.mk (Can.Id.base 9) Can.FrameKind.remote))).queue =
      if (Can.Filter.from_id (Can.Id.base 5)).accepts
          (Can.HwEntry.classic
            (Can.Frame.mk (Can.Id.base 9) Can.FrameKind.remote)).entryId then
        [Can.HwEntry.classic
            (Can.Frame.mk (Can.Id.base 9) Can.FrameKind.remote)] ++
          [Can.HwEntry.classic
              (Can.Frame.mk (Can.Id.base 9) Can.FrameKind.remote)]
      else
        [Can.HwEntry.classic
            (Can.Frame.mk (Can.Id.base 9) Can.FrameKind.remote)]) ∧
    (∃ s'', Can.receive
        (Can.set_filter
          (Can.RxState.mk
            [Can.HwEntry.classic
                (Can.Frame.mk (Can.Id.base 9) Can.FrameKind.remote)]
            Can.Filter.acceptAll)
          (Can.Filter.from_id (Can.Id.base 5))) =
      some (Can.Frame.mk (Can.Id.base 9) Can.FrameKind.remote, s'')) :=
  ⟨(Can.set_filter_non_retroactive
      (Can.RxState.mk
        [Can.HwEntry.classic
            (Can.Frame.mk (Can.Id.base 9) Can.FrameKind.remote)]
        Can.Filter.acceptAll)
      (Can.Filter.from_id (Can.Id.base 5))).1,
    (Can.set_filter_non_retroactive
      (Can.RxState.mk
        [Can.HwEntry.classic
            (Can.Frame.mk (Can.Id.base 9) Can.FrameKind.remote)]
        Can.Filter.acceptAll)
      (Can.Filter.from_id (Can.Id.base 5))).2.1
      (Can.HwEntry.classic
        (Can.Frame.mk (Can.Id.base 9) Can.FrameKind.remote)),
    (Can.set_filter_non_retroactive
      (Can.RxState.mk
        [Can.HwEntry.classic
            (Can.Frame.mk (Can.Id.base 9) Can.FrameKind.remote)]
        Can.Filter.acceptAll)
      (Can.Filter.from_id (Can.Id.base 5))).2.2
      (Can.Frame.mk (Can.Id.base 9) Can.FrameKind.remote)
      (Can.RxState.mk [] Can.Filter.acceptAll) (by decide)⟩
